import Mathlib

/-!
Verification of the cosmio terrain-generation pipeline.

This file gives a shallow embedding of the terrain pipeline stages of the
repository (`src/themes/terrain/blocks.ts`, `src/themes/terrain/assets.ts`,
`src/themes/terrain/epics.ts`) and proves the spec's stated properties of
them.  JavaScript numbers are modelled as exact rationals (`ℚ`) — every
quantity the verified claims touch stays well inside the range where
IEEE-754 doubles are exact or where only comparisons matter; grid indices
are modelled as `ℤ` and levels/seeds as `ℕ`.

The repository contains two generations of the terrain theme: the 10-level
one (`blocks.ts` with `level10`, `assets.ts`) and the 100-level one (the
second `blocks.ts` variant with `level100`, `epics.ts`).  `epics.ts` reads
`cell.level100` while the `computeRichness` helper it imports from
`assets.ts` reads `cell.level10`; the embedding therefore carries both
level fields on one `IsoCell` record, mirroring the union of the two
source declarations (the precomputed per-cell `colors` payload of the
100-level variant is omitted: no function verified here reads it).
-/

-- ── Core data model ───────────────────────────────────────────

/-- Aggregate activity statistics (`ContributionStats` in `core/types.ts`);
only the fields the terrain pipeline reads are carried. -/
structure ContributionStats where
  total : ℕ
  longestStreak : ℕ
  currentStreak : ℕ
deriving DecidableEq

/-- Per-cell biome context (`BiomeContext` in `themes/terrain/biomes.ts`). -/
structure BiomeContext where
  isRiver : Bool
  isPond : Bool
  forestDensity : ℚ
  nearWater : Bool
deriving DecidableEq

/-- Input grid cell; merges `GridCell10` (`level10`) and `GridCell100`
(`level100`) from `themes/shared.ts`. -/
structure GridCell where
  level10 : ℕ
  level100 : ℕ
deriving DecidableEq

/-- An isometric cell; merges the two source `IsoCell` declarations
(10-level `blocks.ts` and 100-level `blocks.ts`), see the file header. -/
structure IsoCell where
  week : ℤ
  day : ℤ
  level10 : ℕ
  level100 : ℕ
  height : ℚ
  isoX : ℚ
  isoY : ℚ
deriving DecidableEq

/-- The `"week,day"` string key the source uses for its cell maps,
modelled as the pair itself (the string encoding of two integers joined
by a comma is injective, so the pair is a faithful key). -/
def cellKey (c : IsoCell) : ℤ × ℤ := (c.week, c.day)

/-- A `Map<string, IsoCell>` keyed by `"week,day"`. -/
def CellMap : Type := ℤ × ℤ → Option IsoCell

/-- `cellMap.set(key(c), c)` for each cell in order: later inserts win,
exactly like repeated `Map.set`. -/
def buildCellMap (cells : List IsoCell) : CellMap :=
  cells.foldl (fun m c => fun k => if k = cellKey c then some c else m k)
    (fun _ => none)

-- ── Seeded randomness (modelled from the spec) ────────────────

/-- Modelled from the spec: `seededRandom` lives in `src/utils/math.ts`,
which is not under `src/`; the spec describes it as "a simple
linear-congruential-style closure" with `next() → float[0,1)`.  We use the
same LCG the repository's `src/utils/noise.ts` uses for its internal
seeding (`s = (s * 9301 + 49297) % 233280`). -/
def lcgNext (s : ℕ) : ℕ := (s * 9301 + 49297) % 233280

/-- The stream of values produced by `seededRandom(seed)`: the `t`-th call
advances the LCG state once more and returns `state / 233280 ∈ [0,1)`. -/
def seededRandom (seed : ℕ) : ℕ → ℚ :=
  fun t => ((lcgNext^[t + 1]) seed : ℚ) / 233280

/-- A pseudo-random generator in flight: an arbitrary stream of draw
values together with the index of the next draw.  All structural theorems
below hold for every stream; the pipeline instantiates `stream` with
`seededRandom`. -/
structure Rng where
  stream : ℕ → ℚ
  k : ℕ

/-- One call `rng()`. -/
def Rng.next (r : Rng) : ℚ × Rng :=
  (r.stream r.k, { r with k := r.k + 1 })

/-- `seededRandom(seed)` as a fresh generator. -/
def mkRng (seed : ℕ) : Rng := ⟨seededRandom seed, 0⟩

/-- Modelled from the spec: `hash` lives in `src/utils/math.ts`, which is
not under `src/`; the spec only shows `hash(seed + "epic")`, a fixed
string hash.  We model a standard 32-bit polynomial string hash; the only
property any proof uses beyond determinism is that its output is bounded
by 2^32, true of any fixed-width string hash. -/
def hashString (s : String) : ℕ :=
  s.toList.foldl (fun h c => (h * 31 + c.toNat) % 4294967296) 5381

/-- `Math.floor` of a nonnegative rational, as a natural number. -/
def ratFloorNat (q : ℚ) : ℕ := (Int.floor q).toNat

-- ── Isometric projection (`toIsoCells`, blocks.ts) ────────────

/-- Half tile width `THW` (blocks.ts). -/
def THW : ℚ := 7

/-- Half tile height `THH` (blocks.ts). -/
def THH : ℚ := 3

/-- `Math.ceil(cells.length / 7)` — the week count derived from the data. -/
def numWeeks (n : ℕ) : ℕ := (n + 6) / 7

/-- Build the `IsoCell` pushed for grid cell `cell` at loop counters
`(week, day)`; the height lookup (`palette.heights[level10]` in the
10-level variant, `palette.getHeight(level100)` in the 100-level one) is
abstracted as the function argument `heightOf`. -/
def mkIsoCell (heightOf : GridCell → ℚ) (originX originY : ℚ)
    (cell : GridCell) (week day : ℕ) : IsoCell :=
  { week := week
    day := day
    level10 := cell.level10
    level100 := cell.level100
    height := heightOf cell
    isoX := originX + ((week : ℚ) - (day : ℚ)) * THW
    isoY := originY + ((week : ℚ) + (day : ℚ)) * THH }

/-- The nested generation loop of `toIsoCells`: `week` ranges over
`numWeeks`, `day` over `0..6`, and the running `cellIndex` (which equals
`week * 7 + day`) reads the next grid cell, stopping past the end. -/
def toIsoCellsUnsorted (cells : List GridCell) (heightOf : GridCell → ℚ)
    (originX originY : ℚ) : List IsoCell :=
  (List.range (numWeeks cells.length)).flatMap fun week =>
    (List.range 7).filterMap fun day =>
      (cells.get? (week * 7 + day)).map fun cell =>
        mkIsoCell heightOf originX originY cell week day

/-- The draw-order relation of the sort comparator in `toIsoCells`:
`cmp(a,b) ≤ 0` for `(a,b) => (sumA - sumB) or (a.week - b.week)`. -/
def cellLe (a b : IsoCell) : Prop :=
  a.week + a.day < b.week + b.day ∨
    (a.week + a.day = b.week + b.day ∧ a.week ≤ b.week)

instance : DecidableRel cellLe := fun a b => by
  unfold cellLe; infer_instance

instance : IsTotal IsoCell cellLe where
  total a b := by
    unfold cellLe
    rcases lt_trichotomy (a.week + a.day) (b.week + b.day) with h | h | h
    · exact Or.inl (Or.inl h)
    · rcases le_total a.week b.week with hw | hw
      · exact Or.inl (Or.inr ⟨h, hw⟩)
      · exact Or.inr (Or.inr ⟨h.symm, hw⟩)
    · exact Or.inr (Or.inl h)

instance : IsTrans IsoCell cellLe where
  trans a b c hab hbc := by
    unfold cellLe at *
    rcases hab with h1 | ⟨h1, h1w⟩ <;> rcases hbc with h2 | ⟨h2, h2w⟩
    · exact Or.inl (h1.trans h2)
    · exact Or.inl (h2 ▸ h1)
    · exact Or.inl (h1 ▸ h2)
    · exact Or.inr ⟨h1.trans h2, h1w.trans h2w⟩

/-- `toIsoCells` (blocks.ts): generate one `IsoCell` per grid cell, then
sort into back-to-front draw order with the comparator
`(a,b) => (sumA - sumB) or (a.week - b.week)`. -/
def toIsoCells (cells : List GridCell) (heightOf : GridCell → ℚ)
    (originX originY : ℚ) : List IsoCell :=
  List.insertionSort cellLe (toIsoCellsUnsorted cells heightOf originX originY)

-- ── Neighborhood richness (assets.ts) ─────────────────────────

/-- The 8 `(dw, dd)` offsets the `computeRichness` double loop visits, in
loop order, skipping `(0,0)`. -/
def neighborOffsets : List (ℤ × ℤ) :=
  [(-1, -1), (-1, 0), (-1, 1), (0, -1), (0, 1), (1, -1), (1, 0), (1, 1)]

/-- The neighbors of `cell` present in `cellMap`, in loop order. -/
def presentNeighbors (cell : IsoCell) (cellMap : CellMap) : List IsoCell :=
  neighborOffsets.filterMap fun p => cellMap (cell.week + p.1, cell.day + p.2)

/-- `computeRichness` (assets.ts): sum the `level10` of the present
neighbors and divide by `count * 9`; no neighbors gives 0. -/
def computeRichness (cell : IsoCell) (cellMap : CellMap) : ℚ :=
  let ns := presentNeighbors cell cellMap
  if ns.length = 0 then 0
  else ((ns.map fun n => (n.level10 : ℚ)).sum) / ((ns.length : ℚ) * 9)

-- ── Asset placement (assets.ts) ───────────────────────────────

/-- One entry of `LEVEL_POOLS`. -/
structure Pool where
  types : List String
  chance : ℚ
deriving DecidableEq

/-- `LEVEL_POOLS` (assets.ts), keyed by pool name. -/
def LEVEL_POOLS (name : String) : Pool :=
  if name = "ocean" then ⟨["whale", "boat", "fish", "fish"], 18/100⟩
  else if name = "shore" then ⟨["bush", "bush", "fence"], 15/100⟩
  else if name = "grass" then ⟨["pine", "deciduous", "bush", "sheep"], 22/100⟩
  else if name = "forest" then ⟨["pine", "pine", "deciduous", "pine", "bush"], 35/100⟩
  else if name = "farm" then ⟨["sheep", "cow", "chicken", "wheat", "fence", "barn", "house"], 35/100⟩
  else if name = "village" then ⟨["house", "houseB", "windmill", "well", "sheep", "fence", "pine"], 40/100⟩
  else if name = "town" then ⟨["house", "houseB", "church", "windmill", "house", "flag", "well"], 50/100⟩
  else ⟨["church", "house", "houseB", "house", "windmill", "flag", "barn"], 55/100⟩

/-- `getLevelPool` (assets.ts). -/
def getLevelPool (level : ℕ) : Pool :=
  if level ≤ 1 then LEVEL_POOLS "ocean"
  else if level = 2 then LEVEL_POOLS "shore"
  else if level = 3 then LEVEL_POOLS "grass"
  else if level ≤ 5 then LEVEL_POOLS "forest"
  else if level = 6 then LEVEL_POOLS "farm"
  else if level = 7 then LEVEL_POOLS "village"
  else if level = 8 then LEVEL_POOLS "town"
  else LEVEL_POOLS "city"

/-- `PlacedAsset` (assets.ts). -/
structure PlacedAsset where
  cell : IsoCell
  type : String
  cx : ℚ
  cy : ℚ
  ox : ℚ
  oy : ℚ
deriving DecidableEq

/-- The body of the `selectAssets` loop for one cell: the chance draw,
then on success the type/offset draws, then — only when richness exceeds
0.5 and the level is at least 5 — the independent bonus-asset draw from
the same stream. -/
def placeAssetsForCell (cellMap : CellMap) (cell : IsoCell) (rng : Rng) :
    List PlacedAsset × Rng :=
  let pool := getLevelPool cell.level10
  let richness := computeRichness cell cellMap
  let finalChance := pool.chance + richness * (20/100)
  let (r1, rng) := rng.next
  if r1 < finalChance then
    let (r2, rng) := rng.next
    let ty := pool.types.getD (ratFloorNat (r2 * pool.types.length)) ""
    let (r3, rng) := rng.next
    let (r4, rng) := rng.next
    let a1 : PlacedAsset :=
      { cell := cell, type := ty, cx := cell.isoX, cy := cell.isoY
        ox := (r3 - 1/2) * 3, oy := (r4 - 1/2) * (3/2) }
    if richness > 1/2 ∧ 5 ≤ cell.level10 then
      let (r5, rng) := rng.next
      if r5 < 3/10 then
        let (r6, rng) := rng.next
        let ty2 := pool.types.getD (ratFloorNat (r6 * pool.types.length)) ""
        let (r7, rng) := rng.next
        let (r8, rng) := rng.next
        let a2 : PlacedAsset :=
          { cell := cell, type := ty2, cx := cell.isoX, cy := cell.isoY
            ox := (r7 - 1/2) * 4, oy := (r8 - 1/2) * 2 }
        ([a1, a2], rng)
      else ([a1], rng)
    else ([a1], rng)
  else ([], rng)

/-- The `selectAssets` cell loop, threading the generator in iteration
order. -/
def selectAssetsGo (cellMap : CellMap) : List IsoCell → Rng → List PlacedAsset
  | [], _ => []
  | c :: rest, rng =>
    let (here, rng) := placeAssetsForCell cellMap c rng
    here ++ selectAssetsGo cellMap rest rng

/-- `selectAssets` with an explicit generator. -/
def selectAssetsWith (isoCells : List IsoCell) (rng : Rng) : List PlacedAsset :=
  selectAssetsGo (buildCellMap isoCells) isoCells rng

/-- The seed `selectAssets` hands to `seededRandom` (assets.ts line
`const rng = seededRandom(seed)`): the master seed itself. -/
def assetRngSeed (seed : ℕ) : ℕ := seed

/-- `selectAssets` (assets.ts). -/
def selectAssets (isoCells : List IsoCell) (seed : ℕ) : List PlacedAsset :=
  selectAssetsWith isoCells (mkRng (assetRngSeed seed))

-- ── Epic landmark selection (epics.ts) ────────────────────────

/-- `EpicTier` (epics.ts). -/
inductive EpicTier where
  | rare
  | epic
  | legendary
deriving DecidableEq

/-- `TierConfig` (epics.ts). -/
structure TierConfig where
  minLevel : ℕ
  minRichness : ℚ
  baseChance : ℚ
  glowColor : String
  statsGate : ContributionStats → Bool

/-- `TIER_CONFIG` (epics.ts). -/
def TIER_CONFIG : EpicTier → TierConfig
  | .rare =>
    { minLevel := 88, minRichness := 45/100, baseChance := 18/1000
      glowColor := "#FFD700"
      statsGate := fun s => 200 ≤ s.total || 7 ≤ s.longestStreak }
  | .epic =>
    { minLevel := 93, minRichness := 55/100, baseChance := 8/1000
      glowColor := "#9B59B6"
      statsGate := fun s => 500 ≤ s.total && 14 ≤ s.longestStreak }
  | .legendary =>
    { minLevel := 97, minRichness := 65/100, baseChance := 3/1000
      glowColor := "#00CED1"
      statsGate := fun s => 1000 ≤ s.total && 30 ≤ s.longestStreak }

/-- `EPIC_BUILDINGS` (epics.ts): the 30 building variants with their
tiers; building types are the source's string-literal union. -/
def EPIC_BUILDINGS : List (String × EpicTier) :=
  [("mountFuji", .rare), ("colosseum", .rare), ("giantSequoia", .rare),
   ("coralReef", .rare), ("pagoda", .rare), ("torii", .rare),
   ("geyser", .rare), ("hotSpring", .rare), ("eiffelTower", .rare),
   ("grandCanyon", .rare), ("windmillGrand", .rare), ("oasis", .rare),
   ("volcano", .rare), ("giantMushroom", .rare),
   ("aurora", .epic), ("tajMahal", .epic), ("giantWaterfall", .epic),
   ("stBasils", .epic), ("bambooGrove", .epic), ("operaHouse", .epic),
   ("glacierPeak", .epic), ("bioluminescentPool", .epic),
   ("meteorCrater", .epic), ("bonsaiGiant", .epic),
   ("floatingIsland", .legendary), ("crystalSpire", .legendary),
   ("dragonNest", .legendary), ("worldTree", .legendary),
   ("sakuraEternal", .legendary), ("ancientPortal", .legendary)]

/-- `PlacedEpicBuilding` (epics.ts). -/
structure PlacedEpicBuilding where
  type : String
  tier : EpicTier
  week : ℤ
  day : ℤ
  cx : ℚ
  cy : ℚ
deriving DecidableEq

/-- `MAX_EPIC_BUDGET` (epics.ts). -/
def MAX_EPIC_BUDGET : ℕ := 3

/-- `MIN_MANHATTAN_DISTANCE` (epics.ts). -/
def MIN_MANHATTAN_DISTANCE : ℕ := 3

/-- `manhattanDistance` (epics.ts). -/
def manhattanDistance (a : PlacedEpicBuilding) (w d : ℤ) : ℕ :=
  (a.week - w).natAbs + (a.day - d).natAbs

/-- The tier iteration order `['legendary', 'epic', 'rare']`. -/
def tierOrder : List EpicTier := [.legendary, .epic, .rare]

/-- Membership in the `passedTiers` set (Gate 3, evaluated per tier). -/
def tierPassed (stats : ContributionStats) (t : EpicTier) : Bool :=
  (TIER_CONFIG t).statsGate stats

/-- The streak bonus multiplier of `selectEpicBuildings`. -/
def streakMultiplier (stats : ContributionStats) : ℚ :=
  if 30 ≤ stats.currentStreak then 144/100
  else if 7 ≤ stats.currentStreak then 115/100
  else 1

/-- Swap two positions of a list; identity when either index is out of
range (the actual generator draws in `[0,1)` keep both in range). -/
def listSwap (l : List IsoCell) (i j : ℕ) : List IsoCell :=
  match l.get? i, l.get? j with
  | some a, some b => (l.set i b).set j a
  | _, _ => l

/-- The Fisher–Yates loop of `selectEpicBuildings`, counting `i` down
from `length - 1` while `i > 0`; `j = Math.floor(rng() * (i + 1))`. -/
def shuffleFrom (l : List IsoCell) (rng : Rng) : ℕ → List IsoCell × Rng
  | 0 => (l, rng)
  | i + 1 =>
    let (r, rng) := rng.next
    let j := ratFloorNat (r * ((i : ℚ) + 2))
    shuffleFrom (listSwap l (i + 1) j) rng i

/-- The tier loop for one cell: a tier failing Gate 3 or Gates 1–2
`continue`s to the next tier; once a chance is rolled the loop `break`s
whether or not the roll succeeds. -/
def tryTiers (eligibleBuildings : List (String × EpicTier))
    (stats : ContributionStats) (streakMult richness : ℚ) (cell : IsoCell) :
    List EpicTier → Rng → Option PlacedEpicBuilding × Rng
  | [], rng => (none, rng)
  | t :: ts, rng =>
    if ¬ tierPassed stats t then tryTiers eligibleBuildings stats streakMult richness cell ts rng
    else
      let config := TIER_CONFIG t
      if cell.level100 < config.minLevel then
        tryTiers eligibleBuildings stats streakMult richness cell ts rng
      else if richness < config.minRichness then
        tryTiers eligibleBuildings stats streakMult richness cell ts rng
      else
        let richnessExcess := richness - config.minRichness
        let richnessBonus := 1 + min (richnessExcess * 2) (1/2)
        let finalChance := config.baseChance * richnessBonus * streakMult
        let (r, rng) := rng.next
        if r < finalChance then
          let tierBuildings := eligibleBuildings.filter fun b => b.2 = t
          let (r2, rng) := rng.next
          let ty := (tierBuildings.map Prod.fst).getD
            (ratFloorNat (r2 * tierBuildings.length)) ""
          (some { type := ty, tier := t, week := cell.week, day := cell.day
                  cx := cell.isoX, cy := cell.isoY }, rng)
        else (none, rng)

/-- The river/pond skip of the cell scan:
`biome?.isRiver || biome?.isPond` (an absent biome entry is falsy). -/
def isWaterCell (biomeMap : ℤ × ℤ → Option BiomeContext) (k : ℤ × ℤ) : Bool :=
  match biomeMap k with
  | some b => b.isRiver || b.isPond
  | none => false

/-- The anti-clustering check `tooClose`. -/
def tooClose (placed : List PlacedEpicBuilding) (cell : IsoCell) : Bool :=
  placed.any fun p =>
    manhattanDistance p cell.week cell.day < MIN_MANHATTAN_DISTANCE

/-- The shuffled-cell scan of `selectEpicBuildings`: stop at the budget,
skip river/pond cells and cells too close to a placed landmark, then run
the tier loop. -/
def epicGo (cellMap : CellMap) (biomeMap : ℤ × ℤ → Option BiomeContext)
    (eligibleBuildings : List (String × EpicTier)) (stats : ContributionStats)
    (streakMult : ℚ) :
    List IsoCell → Rng → List PlacedEpicBuilding → List (ℤ × ℤ) →
    List PlacedEpicBuilding × List (ℤ × ℤ)
  | [], _, placed, keys => (placed, keys)
  | cell :: rest, rng, placed, keys =>
    if MAX_EPIC_BUDGET ≤ placed.length then (placed, keys)
    else if isWaterCell biomeMap (cellKey cell) then
      epicGo cellMap biomeMap eligibleBuildings stats streakMult rest rng placed keys
    else if tooClose placed cell then
      epicGo cellMap biomeMap eligibleBuildings stats streakMult rest rng placed keys
    else
      match tryTiers eligibleBuildings stats streakMult
          (computeRichness cell cellMap) cell tierOrder rng with
      | (some b, rng) =>
        epicGo cellMap biomeMap eligibleBuildings stats streakMult rest rng
          (placed ++ [b]) (keys ++ [cellKey cell])
      | (none, rng) =>
        epicGo cellMap biomeMap eligibleBuildings stats streakMult rest rng placed keys

/-- `selectEpicBuildings` with an explicit generator: build the cell map,
evaluate Gate 3 per tier, filter the eligible buildings, compute the
streak multiplier, shuffle, and scan. -/
def selectEpicWith (isoCells : List IsoCell) (rng : Rng)
    (stats : ContributionStats) (biomeMap : ℤ × ℤ → Option BiomeContext) :
    List PlacedEpicBuilding × List (ℤ × ℤ) :=
  let cellMap := buildCellMap isoCells
  let eligibleBuildings := EPIC_BUILDINGS.filter fun b => tierPassed stats b.2
  if eligibleBuildings.length = 0 then ([], [])
  else
    let streakMult := streakMultiplier stats
    let sres := shuffleFrom isoCells rng (isoCells.length - 1)
    epicGo cellMap biomeMap eligibleBuildings stats streakMult sres.1 sres.2 [] []

/-- The seed `selectEpicBuildings` hands to `seededRandom` (epics.ts line
`const epicSeed = hash(String(seed) + 'epic')`). -/
def epicRngSeed (seed : ℕ) : ℕ := hashString (Nat.repr seed ++ "epic")

/-- `selectEpicBuildings` (epics.ts).  The returned pair is
`{ placed, epicCells }`. -/
def selectEpicBuildings (isoCells : List IsoCell) (seed : ℕ)
    (stats : ContributionStats) (biomeMap : ℤ × ℤ → Option BiomeContext) :
    List PlacedEpicBuilding × List (ℤ × ℤ) :=
  selectEpicWith isoCells (mkRng (epicRngSeed seed)) stats biomeMap

-- ── Epic rendering (epics.ts, `renderEpicBuildings`) ──────────

/-- The per-week palette index `renderEpicBuildings` computes:
`Math.min(epic.week, weekPalettes.length - 1)`. -/
def epicPaletteIdx (numPalettes : ℕ) (week : ℤ) : ℤ :=
  min week ((numPalettes : ℤ) - 1)

/-- The palette indices `renderEpicBuildings` reads, one per placed
building, in order. -/
def renderEpicPaletteIdxs (placed : List PlacedEpicBuilding)
    (numPalettes : ℕ) : List ℤ :=
  placed.map fun e => epicPaletteIdx numPalettes e.week


-- ── Helper lemmas ─────────────────────────────────────────────

/-- The modelled string hash is bounded by its 32-bit modulus. -/
theorem hashString_lt (s : String) : hashString s < 4294967296 := by
  unfold hashString
  have h : ∀ (l : List Char) (h0 : ℕ), h0 < 4294967296 →
      l.foldl (fun h c => (h * 31 + c.toNat) % 4294967296) h0 < 4294967296 := by
    intro l
    induction l with
    | nil => intro h0 hh; simpa using hh
    | cons c cs ih =>
      intro h0 _
      simp only [List.foldl_cons]
      exact ih _ (Nat.mod_lt _ (by norm_num))
  exact h _ 5381 (by norm_num)

/-- Replacing the element at a valid position by `x` and consing the old
element is a permutation of consing `x`. -/
theorem cons_set_perm {α : Type} (x : α) :
    ∀ (t : List α) (m : ℕ) (b : α), t.get? m = some b →
      (b :: t.set m x).Perm (x :: t) := by
  intro t
  induction t with
  | nil => intro m b hb; simp at hb
  | cons y t2 ih =>
    intro m b hb
    cases m with
    | zero =>
      rw [List.get?_cons_zero, Option.some_inj] at hb
      subst hb
      simpa using List.Perm.swap x y t2
    | succ k =>
      rw [List.get?_cons_succ] at hb
      have step1 : (b :: y :: t2.set k x).Perm (y :: b :: t2.set k x) :=
        List.Perm.swap y b _
      have step2 : (y :: b :: t2.set k x).Perm (y :: x :: t2) :=
        (ih k b hb).cons y
      have step3 : (y :: x :: t2).Perm (x :: y :: t2) := List.Perm.swap x y t2
      simpa using (step1.trans step2).trans step3

/-- Swapping two valid positions of a list is a permutation. -/
theorem set_set_perm {α : Type} :
    ∀ (l : List α) (i j : ℕ) (a b : α), l.get? i = some a →
      l.get? j = some b → ((l.set i b).set j a).Perm l := by
  intro l
  induction l with
  | nil => intro i j a b ha _; simp at ha
  | cons x t ih =>
    intro i j a b ha hb
    cases i with
    | zero =>
      rw [List.get?_cons_zero, Option.some_inj] at ha
      subst ha
      cases j with
      | zero =>
        rw [List.get?_cons_zero, Option.some_inj] at hb
        subst hb
        simp
      | succ m =>
        rw [List.get?_cons_succ] at hb
        simpa using cons_set_perm x t m b hb
    | succ n =>
      rw [List.get?_cons_succ] at ha
      cases j with
      | zero =>
        rw [List.get?_cons_zero, Option.some_inj] at hb
        subst hb
        simpa using cons_set_perm x t n a ha
      | succ m =>
        rw [List.get?_cons_succ] at hb
        simpa using (ih n m a b ha hb).cons x

/-- `listSwap` always permutes. -/
theorem listSwap_perm (l : List IsoCell) (i j : ℕ) :
    (listSwap l i j).Perm l := by
  unfold listSwap
  cases hi : l.get? i with
  | none => cases l.get? j <;> exact List.Perm.refl l
  | some a =>
    cases hj : l.get? j with
    | none => exact List.Perm.refl l
    | some b => exact set_set_perm l i j a b hi hj

/-- The Fisher–Yates loop returns a permutation of its input. -/
theorem shuffleFrom_perm :
    ∀ (n : ℕ) (l : List IsoCell) (rng : Rng),
      (shuffleFrom l rng n).1.Perm l := by
  intro n
  induction n with
  | zero => intro l rng; exact List.Perm.refl l
  | succ i ih =>
    intro l rng
    rw [shuffleFrom]
    exact (ih _ _).trans (listSwap_perm _ _ _)

/-- The spacing relation of the anti-clustering invariant. -/
def epicFar (a b : PlacedEpicBuilding) : Prop :=
  MIN_MANHATTAN_DISTANCE ≤ manhattanDistance a b.week b.day

/-- What a successful tier loop guarantees about the returned building:
it carries the scanned cell's coordinates and center, its tier passed
Gate 3, and the cell passed Gates 1 and 2 for that tier. -/
theorem tryTiers_some (eb : List (String × EpicTier)) (stats : ContributionStats)
    (sm rich : ℚ) (cell : IsoCell) :
    ∀ (ts : List EpicTier) (rng : Rng) (b : PlacedEpicBuilding) (rng2 : Rng),
      tryTiers eb stats sm rich cell ts rng = (some b, rng2) →
      b.week = cell.week ∧ b.day = cell.day ∧ b.cx = cell.isoX ∧
      b.cy = cell.isoY ∧ tierPassed stats b.tier = true ∧
      (TIER_CONFIG b.tier).minLevel ≤ cell.level100 ∧
      (TIER_CONFIG b.tier).minRichness ≤ rich := by
  intro ts
  induction ts with
  | nil => intro rng b rng2 h; simp [tryTiers] at h
  | cons t ts ih =>
    intro rng b rng2 h
    rw [tryTiers] at h
    by_cases h1 : tierPassed stats t
    · simp only [h1, not_true, if_false, if_neg] at h
      by_cases h2 : cell.level100 < (TIER_CONFIG t).minLevel
      · rw [if_pos h2] at h
        exact ih rng b rng2 h
      · rw [if_neg h2] at h
        by_cases h3 : rich < (TIER_CONFIG t).minRichness
        · rw [if_pos h3] at h
          exact ih rng b rng2 h
        · rw [if_neg h3] at h
          simp only [Rng.next] at h
          by_cases h4 : rng.stream rng.k <
              (TIER_CONFIG t).baseChance *
                (1 + min ((rich - (TIER_CONFIG t).minRichness) * 2) (1/2)) * sm
          · rw [if_pos h4] at h
            rw [Prod.mk.injEq, Option.some_inj] at h
            rcases h with ⟨hb, _⟩
            subst hb
            exact ⟨rfl, rfl, rfl, rfl, h1, not_lt.mp h2, not_lt.mp h3⟩
          · rw [if_neg h4] at h
            simp at h
    · simp only [h1, not_false_iff, if_true] at h
      exact ih rng b rng2 h

/-- The cell scan keeps the placed list within the budget. -/
theorem epicGo_length_le (cm : CellMap) (bm : ℤ × ℤ → Option BiomeContext)
    (eb : List (String × EpicTier)) (stats : ContributionStats) (sm : ℚ) :
    ∀ (l : List IsoCell) (rng : Rng) (placed : List PlacedEpicBuilding)
      (keys : List (ℤ × ℤ)), placed.length ≤ MAX_EPIC_BUDGET →
      ((epicGo cm bm eb stats sm l rng placed keys).1).length ≤ MAX_EPIC_BUDGET := by
  intro l
  induction l with
  | nil => intro rng placed keys h; simpa [epicGo] using h
  | cons cell rest ih =>
    intro rng placed keys h
    rw [epicGo]
    by_cases hb : MAX_EPIC_BUDGET ≤ placed.length
    · simpa [hb] using h
    · rw [if_neg hb]
      by_cases hw : isWaterCell bm (cellKey cell)
      · rw [if_pos hw]; exact ih _ _ _ h
      · rw [if_neg hw]
        by_cases hc : tooClose placed cell
        · rw [if_pos hc]; exact ih _ _ _ h
        · rw [if_neg hc]
          rcases htt : tryTiers eb stats sm (computeRichness cell cm) cell
            tierOrder rng with ⟨ob, rng2⟩
          cases ob with
          | some b =>
            simp only [htt]
            refine ih _ _ _ ?_
            have : placed.length < MAX_EPIC_BUDGET := not_le.mp hb
            simp [List.length_append]
            omega
          | none => simp only [htt]; exact ih _ _ _ h

/-- The cell scan preserves the pairwise-spacing invariant. -/
theorem epicGo_pairwise (cm : CellMap) (bm : ℤ × ℤ → Option BiomeContext)
    (eb : List (String × EpicTier)) (stats : ContributionStats) (sm : ℚ) :
    ∀ (l : List IsoCell) (rng : Rng) (placed : List PlacedEpicBuilding)
      (keys : List (ℤ × ℤ)), placed.Pairwise epicFar →
      ((epicGo cm bm eb stats sm l rng placed keys).1).Pairwise epicFar := by
  intro l
  induction l with
  | nil => intro rng placed keys h; simpa [epicGo] using h
  | cons cell rest ih =>
    intro rng placed keys h
    rw [epicGo]
    by_cases hb : MAX_EPIC_BUDGET ≤ placed.length
    · simpa [hb] using h
    · rw [if_neg hb]
      by_cases hw : isWaterCell bm (cellKey cell)
      · rw [if_pos hw]; exact ih _ _ _ h
      · rw [if_neg hw]
        by_cases hc : tooClose placed cell
        · rw [if_pos hc]; exact ih _ _ _ h
        · rw [if_neg hc]
          rcases htt : tryTiers eb stats sm (computeRichness cell cm) cell
            tierOrder rng with ⟨ob, rng2⟩
          cases ob with
          | some b =>
            simp only [htt]
            refine ih _ _ _ ?_
            rw [List.pairwise_append]
            refine ⟨h, List.pairwise_singleton _ _, ?_⟩
            intro a ha b' hb'
            rw [List.mem_singleton] at hb'
            subst hb'
            obtain ⟨hbw, hbd, -, -, -, -, -⟩ :=
              tryTiers_some eb stats sm (computeRichness cell cm) cell
                tierOrder rng b' rng2 htt
            unfold tooClose at hc
            rw [Bool.not_eq_true, List.any_eq_false] at hc
            have := hc a ha
            unfold epicFar
            rw [hbw, hbd]
            simpa using this
          | none => simp only [htt]; exact ih _ _ _ h

/-- Every building the cell scan adds was admitted by the three gates at
some scanned cell. -/
theorem epicGo_mem (cm : CellMap) (bm : ℤ × ℤ → Option BiomeContext)
    (eb : List (String × EpicTier)) (stats : ContributionStats) (sm : ℚ) :
    ∀ (l : List IsoCell) (rng : Rng) (placed : List PlacedEpicBuilding)
      (keys : List (ℤ × ℤ)) (b : PlacedEpicBuilding),
      b ∈ (epicGo cm bm eb stats sm l rng placed keys).1 →
      b ∈ placed ∨ ∃ c ∈ l, b.week = c.week ∧ b.day = c.day ∧
        tierPassed stats b.tier = true ∧
        (TIER_CONFIG b.tier).minLevel ≤ c.level100 ∧
        (TIER_CONFIG b.tier).minRichness ≤ computeRichness c cm := by
  intro l
  induction l with
  | nil =>
    intro rng placed keys b hb
    simp only [epicGo] at hb
    exact Or.inl hb
  | cons cell rest ih =>
    intro rng placed keys b hb
    rw [epicGo] at hb
    by_cases hbud : MAX_EPIC_BUDGET ≤ placed.length
    · rw [if_pos hbud] at hb
      exact Or.inl hb
    · rw [if_neg hbud] at hb
      have weaken : (b ∈ placed ∨ ∃ c ∈ rest, b.week = c.week ∧ b.day = c.day ∧
          tierPassed stats b.tier = true ∧
          (TIER_CONFIG b.tier).minLevel ≤ c.level100 ∧
          (TIER_CONFIG b.tier).minRichness ≤ computeRichness c cm) →
          b ∈ placed ∨ ∃ c ∈ cell :: rest, b.week = c.week ∧ b.day = c.day ∧
          tierPassed stats b.tier = true ∧
          (TIER_CONFIG b.tier).minLevel ≤ c.level100 ∧
          (TIER_CONFIG b.tier).minRichness ≤ computeRichness c cm := by
        rintro (h | ⟨c, hc, hrest⟩)
        · exact Or.inl h
        · exact Or.inr ⟨c, List.mem_cons_of_mem _ hc, hrest⟩
      by_cases hw : isWaterCell bm (cellKey cell)
      · rw [if_pos hw] at hb
        exact weaken (ih _ _ _ b hb)
      · rw [if_neg hw] at hb
        by_cases hc : tooClose placed cell
        · rw [if_pos hc] at hb
          exact weaken (ih _ _ _ b hb)
        · rw [if_neg hc] at hb
          rcases htt : tryTiers eb stats sm (computeRichness cell cm) cell
            tierOrder rng with ⟨ob, rng2⟩
          cases ob with
          | some b2 =>
            rw [htt] at hb
            rcases ih _ _ _ b hb with hmem | ⟨c, hcmem, hrest⟩
            · rw [List.mem_append, List.mem_singleton] at hmem
              rcases hmem with hmem | rfl
              · exact Or.inl hmem
              · obtain ⟨h1, h2, -, -, h5, h6, h7⟩ :=
                  tryTiers_some eb stats sm (computeRichness cell cm) cell
                    tierOrder rng b rng2 htt
                exact Or.inr ⟨cell, List.mem_cons_self _ _, h1, h2, h5, h6, h7⟩
            · exact Or.inr ⟨c, List.mem_cons_of_mem _ hcmem, hrest⟩
          | none =>
            rw [htt] at hb
            exact weaken (ih _ _ _ b hb)

-- ── C2: landmark budget ───────────────────────────────────────

/-- C2: for every input cell list, seed, statistics and biome map,
`selectEpicBuildings` places at most 3 epic buildings. -/
theorem selectEpicBuildings_budget (cells : List IsoCell) (seed : ℕ)
    (stats : ContributionStats) (bm : ℤ × ℤ → Option BiomeContext) :
    ((selectEpicBuildings cells seed stats bm).1).length ≤ 3 := by
  unfold selectEpicBuildings selectEpicWith
  by_cases helig : (EPIC_BUILDINGS.filter fun b => tierPassed stats b.2).length = 0
  · simp [helig]
  · simp only [helig, if_neg, if_false]
    exact epicGo_length_le _ _ _ _ _ _ _ [] [] (by simp [MAX_EPIC_BUDGET])

-- ── C3: anti-clustering ───────────────────────────────────────

/-- C3: any two distinct placed epic buildings are at Manhattan distance
at least 3 from each other. -/
theorem selectEpicBuildings_anticluster (cells : List IsoCell) (seed : ℕ)
    (stats : ContributionStats) (bm : ℤ × ℤ → Option BiomeContext) :
    ((selectEpicBuildings cells seed stats bm).1).Pairwise
      (fun a b => 3 ≤ manhattanDistance a b.week b.day) := by
  have h : ((selectEpicBuildings cells seed stats bm).1).Pairwise epicFar := by
    unfold selectEpicBuildings selectEpicWith
    by_cases helig : (EPIC_BUILDINGS.filter fun b => tierPassed stats b.2).length = 0
    · simp [helig]
    · simp only [helig, if_neg, if_false]
      exact epicGo_pairwise _ _ _ _ _ _ _ [] [] List.Pairwise.nil
  exact h.imp fun hf => hf

-- ── C1: gate soundness ────────────────────────────────────────

/-- C1: every placed epic building passed all three gates of its tier —
its tier's global stats gate holds, and the input cell it was placed on
meets the tier's `minLevel` with its `level100` and the tier's
`minRichness` with its `computeRichness` neighborhood richness. -/
theorem selectEpicBuildings_gates (cells : List IsoCell) (seed : ℕ)
    (stats : ContributionStats) (bm : ℤ × ℤ → Option BiomeContext)
    (b : PlacedEpicBuilding)
    (hb : b ∈ (selectEpicBuildings cells seed stats bm).1) :
    (TIER_CONFIG b.tier).statsGate stats = true ∧
    ∃ c ∈ cells, b.week = c.week ∧ b.day = c.day ∧
      (TIER_CONFIG b.tier).minLevel ≤ c.level100 ∧
      (TIER_CONFIG b.tier).minRichness ≤
        computeRichness c (buildCellMap cells) := by
  unfold selectEpicBuildings selectEpicWith at hb
  by_cases helig : (EPIC_BUILDINGS.filter fun b => tierPassed stats b.2).length = 0
  · simp [helig] at hb
  · simp only [helig, if_neg, if_false] at hb
    rcases epicGo_mem _ _ _ _ _ _ _ _ _ b hb with hmem | ⟨c, hcmem, h1, h2, h5, h6, h7⟩
    · simp at hmem
    · have hcin : c ∈ cells :=
        (shuffleFrom_perm (cells.length - 1) cells (mkRng (epicRngSeed seed))).mem_iff.mp hcmem
      exact ⟨h5, c, hcin, h1, h2, h6, h7⟩

-- ── C1 witness data ───────────────────────────────────────────

/-- A max-level cell at `(0,0)` for the gate-soundness witness run. -/
def epicCellA : IsoCell := ⟨0, 0, 9, 99, 0, 0, 0⟩

/-- A max-level cell at `(0,1)` for the gate-soundness witness run. -/
def epicCellB : IsoCell := ⟨0, 1, 9, 99, 0, 1, 2⟩

/-- Statistics passing only the rare tier's Gate 3, with a 30-day current
streak. -/
def epicStatsW : ContributionStats := ⟨200, 7, 30⟩

/-- The building the witness run places: seed 15 shuffles the two-cell
grid identically and its second draw passes the rare chance roll. -/
def epicBW : PlacedEpicBuilding := ⟨"windmillGrand", .rare, 0, 0, 0, 0⟩

set_option maxRecDepth 10000 in
/-- Witness for the gate-soundness theorem: on a concrete two-cell grid
with seed 15 a rare landmark is actually placed, and the theorem applies
to it. -/
theorem selectEpicBuildings_gates_witness :
    (TIER_CONFIG epicBW.tier).statsGate epicStatsW = true ∧
    ∃ c ∈ [epicCellA, epicCellB], epicBW.week = c.week ∧ epicBW.day = c.day ∧
      (TIER_CONFIG epicBW.tier).minLevel ≤ c.level100 ∧
      (TIER_CONFIG epicBW.tier).minRichness ≤
        computeRichness c (buildCellMap [epicCellA, epicCellB]) :=
  selectEpicBuildings_gates [epicCellA, epicCellB] 15 epicStatsW (fun _ => none)
    epicBW (by with_unfolding_all decide)

-- ── C4: draw order ────────────────────────────────────────────

/-- C4: `toIsoCells` output is sorted in draw order: along the array the
sum `week + day` never decreases, and among equal sums the week index
never decreases. -/
theorem toIsoCells_drawOrder (cells : List GridCell) (heightOf : GridCell → ℚ)
    (originX originY : ℚ) :
    (toIsoCells cells heightOf originX originY).Pairwise cellLe :=
  List.sorted_insertionSort cellLe _

-- ── C9: indexing of `toIsoCells` ──────────────────────────────

/-- Splitting a `range`-indexed `filterMap` into week-sized blocks. -/
theorem flatMap_week_blocks {β : Type} (g : ℕ → Option β) :
    ∀ W : ℕ,
      (List.range W).flatMap (fun w => (List.range 7).filterMap fun d => g (w * 7 + d))
        = (List.range (W * 7)).filterMap g := by
  intro W
  induction W with
  | zero => simp
  | succ W ih =>
    rw [List.range_succ, List.flatMap_append, ih]
    have h7 : (W + 1) * 7 = W * 7 + 7 := by ring
    rw [h7, List.range_add, List.filterMap_append, List.filterMap_map]
    simp [List.flatMap]
    rfl

/-- A `filterMap` over positions of a list enumerates the list. -/
theorem filterMap_get_enumFrom {α β : Type} (F : ℕ → α → β) :
    ∀ (cells : List α) (k : ℕ),
      (List.range cells.length).filterMap
          (fun i => (cells.get? i).map fun c => F (k + i) c)
        = (cells.enumFrom k).map fun p => F p.1 p.2 := by
  intro cells
  induction cells with
  | nil => intro k; simp
  | cons a t ih =>
    intro k
    rw [List.length_cons, List.range_succ_eq_map, List.filterMap_cons]
    have hcomp : (List.range t.length).filterMap
        ((fun i => ((a :: t).get? i).map fun c => F (k + i) c) ∘ Nat.succ)
        = (List.range t.length).filterMap
          (fun i => (t.get? i).map fun c => F (k + 1 + i) c) := by
      apply List.filterMap_congr
      intro i _
      simp only [Function.comp, List.get?_cons_succ]
      have : k + (i + 1) = k + 1 + i := by omega
      rw [Nat.succ_eq_add_one, this]
    rw [List.filterMap_map, hcomp, ih (k + 1), List.enumFrom_cons]
    simp

/-- Positions past the end of the list contribute nothing. -/
theorem filterMap_get_pad {α β : Type} (cells : List α) (M : ℕ)
    (h : cells.length ≤ M) (G : ℕ → α → β) :
    (List.range M).filterMap (fun i => (cells.get? i).map fun c => G i c)
      = (List.range cells.length).filterMap
        (fun i => (cells.get? i).map fun c => G i c) := by
  obtain ⟨d, rfl⟩ : ∃ d, M = cells.length + d := ⟨M - cells.length, by omega⟩
  rw [List.range_add, List.filterMap_append]
  have hnil : (List.filterMap (fun i => (cells.get? i).map fun c => G i c)
      (List.map (fun x => cells.length + x) (List.range d))) = [] := by
    rw [List.filterMap_map]
    apply List.filterMap_eq_nil_iff.mpr
    intro a _
    simp only [Function.comp]
    rw [List.get?_eq_none.mpr (by omega)]
    rfl
  rw [hnil, List.append_nil]

/-- The generation loop of `toIsoCells` assigns the cell at input index
`i` the coordinates `week = i / 7`, `day = i % 7`. -/
theorem toIsoCellsUnsorted_eq (cells : List GridCell) (heightOf : GridCell → ℚ)
    (originX originY : ℚ) :
    toIsoCellsUnsorted cells heightOf originX originY =
      cells.enum.map fun p =>
        mkIsoCell heightOf originX originY p.2 (p.1 / 7) (p.1 % 7) := by
  unfold toIsoCellsUnsorted
  have hbody : ∀ w, ((List.range 7).filterMap fun d =>
        (cells.get? (w * 7 + d)).map fun cell =>
          mkIsoCell heightOf originX originY cell w d)
      = (List.range 7).filterMap fun d =>
        (cells.get? (w * 7 + d)).map fun cell =>
          mkIsoCell heightOf originX originY cell ((w * 7 + d) / 7)
            ((w * 7 + d) % 7) := by
    intro w
    apply List.filterMap_congr
    intro d hd
    rw [List.mem_range] at hd
    have hdiv : (w * 7 + d) / 7 = w := by omega
    have hmod : (w * 7 + d) % 7 = d := by omega
    rw [hdiv, hmod]
  have hfun : (fun w => (List.range 7).filterMap fun d =>
        (cells.get? (w * 7 + d)).map fun cell =>
          mkIsoCell heightOf originX originY cell w d)
      = fun w => (List.range 7).filterMap fun d =>
        (cells.get? (w * 7 + d)).map fun cell =>
          mkIsoCell heightOf originX originY cell ((w * 7 + d) / 7)
            ((w * 7 + d) % 7) := funext hbody
  rw [hfun, flatMap_week_blocks
    (fun i => (cells.get? i).map fun cell =>
      mkIsoCell heightOf originX originY cell (i / 7) (i % 7))
    (numWeeks cells.length)]
  rw [filterMap_get_pad cells (numWeeks cells.length * 7)
    (by unfold numWeeks; omega)
    (fun i cell => mkIsoCell heightOf originX originY cell (i / 7) (i % 7))]
  have := filterMap_get_enumFrom
    (fun i cell => mkIsoCell heightOf originX originY cell (i / 7) (i % 7))
    cells 0
  simp only [Nat.zero_add] at this
  rw [this, List.enum_eq_enumFrom]

/-- The key assigned to input index `i`. -/
def idxKey (i : ℕ) : ℤ × ℤ := ((i / 7 : ℕ), (i % 7 : ℕ))

/-- Index keys are injective: `i = 7 * (i / 7) + i % 7`. -/
theorem idxKey_injective : Function.Injective idxKey := by
  intro a b h
  unfold idxKey at h
  rw [Prod.mk.injEq] at h
  rcases h with ⟨h1, h2⟩
  rw [Int.ofNat_inj] at h1 h2
  omega

/-- C9: `toIsoCells` returns exactly one `IsoCell` per input cell — the
output length equals the input length, the output is a permutation of
the list that assigns input index `i` the coordinates
`week = i / 7`, `day = i % 7`, and each `(week, day)` pair occurs at most
once in the output. -/
theorem toIsoCells_indexing (cells : List GridCell) (heightOf : GridCell → ℚ)
    (originX originY : ℚ) :
    (toIsoCells cells heightOf originX originY).length = cells.length ∧
    (toIsoCells cells heightOf originX originY).Perm
      (cells.enum.map fun p =>
        mkIsoCell heightOf originX originY p.2 (p.1 / 7) (p.1 % 7)) ∧
    ((toIsoCells cells heightOf originX originY).map cellKey).Nodup := by
  have hperm : (toIsoCells cells heightOf originX originY).Perm
      (cells.enum.map fun p =>
        mkIsoCell heightOf originX originY p.2 (p.1 / 7) (p.1 % 7)) := by
    have h0 := List.perm_insertionSort cellLe
      (toIsoCellsUnsorted cells heightOf originX originY)
    exact h0.trans
      (List.Perm.of_eq (toIsoCellsUnsorted_eq cells heightOf originX originY))
  refine ⟨?_, hperm, ?_⟩
  · rw [hperm.length_eq, List.length_map, List.enum_length]
  · refine ((hperm.map cellKey).nodup_iff).mpr ?_
    have hmaps : (cells.enum.map fun p =>
          mkIsoCell heightOf originX originY p.2 (p.1 / 7) (p.1 % 7)).map cellKey
        = (cells.enum.map Prod.fst).map idxKey := by
      rw [List.map_map, List.map_map]
      apply List.map_congr_left
      intro p _
      rfl
    rw [hmaps, List.enum_map_fst]
    exact (List.nodup_range cells.length).map idxKey_injective

-- ── C5: richness ──────────────────────────────────────────────

/-- Every value stored in a built cell map is one of the input cells. -/
theorem buildCellMap_mem :
    ∀ (cells : List IsoCell) (k : ℤ × ℤ) (c : IsoCell),
      buildCellMap cells k = some c → c ∈ cells := by
  have aux : ∀ (cells : List IsoCell) (m0 : CellMap) (k : ℤ × ℤ) (c : IsoCell),
      (cells.foldl (fun m c => fun k => if k = cellKey c then some c else m k) m0) k
        = some c → m0 k = some c ∨ c ∈ cells := by
    intro cells
    induction cells with
    | nil => intro m0 k c h; exact Or.inl h
    | cons x t ih =>
      intro m0 k c h
      rw [List.foldl_cons] at h
      rcases ih _ k c h with h1 | h1
      · by_cases hk : k = cellKey x
        · rw [if_pos hk, Option.some_inj] at h1
          exact Or.inr (h1 ▸ List.mem_cons_self x t)
        · rw [if_neg hk] at h1
          exact Or.inl h1
      · exact Or.inr (List.mem_cons_of_mem x h1)
  intro cells k c h
  rcases aux cells (fun _ => none) k c h with h1 | h1
  · simp at h1
  · exact h1

/-- C5: `computeRichness` is the average of the present neighbors' levels
divided by the maximum level value 9, lies in `[0, 1]` whenever the cell
map holds in-scale levels, and is 0 for a cell with no present
neighbors. -/
theorem computeRichness_spec (cell : IsoCell) (cells : List IsoCell)
    (hlev : ∀ c ∈ cells, c.level10 ≤ 9) :
    0 ≤ computeRichness cell (buildCellMap cells) ∧
    computeRichness cell (buildCellMap cells) ≤ 1 ∧
    (presentNeighbors cell (buildCellMap cells) = [] →
      computeRichness cell (buildCellMap cells) = 0) ∧
    (presentNeighbors cell (buildCellMap cells) ≠ [] →
      computeRichness cell (buildCellMap cells) =
        (((presentNeighbors cell (buildCellMap cells)).map
            fun n => (n.level10 : ℚ)).sum /
          ((presentNeighbors cell (buildCellMap cells)).length : ℚ)) / 9) := by
  set ns := presentNeighbors cell (buildCellMap cells) with hns
  have hmem : ∀ n ∈ ns, n.level10 ≤ 9 := by
    intro n hn
    rw [hns] at hn
    unfold presentNeighbors at hn
    rw [List.mem_filterMap] at hn
    rcases hn with ⟨p, -, hp⟩
    exact hlev n (buildCellMap_mem cells _ n hp)
  unfold computeRichness
  rw [← hns]
  by_cases hlen : ns.length = 0
  · rw [if_pos hlen]
    refine ⟨le_refl 0, by norm_num, fun _ => rfl, fun hne => ?_⟩
    exact absurd (List.length_eq_zero.mp hlen) hne
  · rw [if_neg hlen]
    have hpos : (0 : ℚ) < (ns.length : ℚ) * 9 := by
      have : 0 < ns.length := Nat.pos_of_ne_zero hlen
      positivity
    have hsum0 : 0 ≤ (ns.map fun n => (n.level10 : ℚ)).sum := by
      apply List.sum_nonneg
      intro x hx
      rw [List.mem_map] at hx
      rcases hx with ⟨n, -, rfl⟩
      positivity
    have hsum9 : (ns.map fun n => (n.level10 : ℚ)).sum ≤ (ns.length : ℚ) * 9 := by
      have h := List.sum_le_card_nsmul (ns.map fun n => (n.level10 : ℚ)) 9 ?_
      · rw [List.length_map] at h
        calc (ns.map fun n => (n.level10 : ℚ)).sum
            ≤ (ns.length : ℕ) • (9 : ℚ) := h
          _ = (ns.length : ℚ) * 9 := by rw [nsmul_eq_mul]
      · intro x hx
        rw [List.mem_map] at hx
        rcases hx with ⟨n, hn, rfl⟩
        exact_mod_cast hmem n hn
    refine ⟨div_nonneg hsum0 hpos.le, ?_, fun h0 => ?_, fun _ => ?_⟩
    · rw [div_le_one hpos]
      exact hsum9
    · exact absurd (by rw [h0]; rfl) hlen
    · rw [div_div]

/-- A level-9 cell at `(0,0)` for the richness witness. -/
def richCellA : IsoCell := ⟨0, 0, 9, 99, 0, 0, 0⟩

/-- A level-3 cell at `(1,1)` for the richness witness. -/
def richCellB : IsoCell := ⟨1, 1, 3, 30, 0, 4, 6⟩

/-- Witness for the richness theorem at a concrete two-cell map. -/
theorem computeRichness_spec_witness :
    (∀ c ∈ [richCellA, richCellB], c.level10 ≤ 9) ∧
    (0 ≤ computeRichness richCellA (buildCellMap [richCellA, richCellB]) ∧
     computeRichness richCellA (buildCellMap [richCellA, richCellB]) ≤ 1 ∧
     (presentNeighbors richCellA (buildCellMap [richCellA, richCellB]) = [] →
       computeRichness richCellA (buildCellMap [richCellA, richCellB]) = 0) ∧
     (presentNeighbors richCellA (buildCellMap [richCellA, richCellB]) ≠ [] →
       computeRichness richCellA (buildCellMap [richCellA, richCellB]) =
         (((presentNeighbors richCellA
              (buildCellMap [richCellA, richCellB])).map
             fun n => (n.level10 : ℚ)).sum /
           ((presentNeighbors richCellA
              (buildCellMap [richCellA, richCellB])).length : ℚ)) / 9)) :=
  ⟨by decide, computeRichness_spec richCellA [richCellA, richCellB] (by decide)⟩

-- ── C6: per-stage seed derivation ─────────────────────────────

/-- Counterexample to the claim that `selectAssets`, like
`selectEpicBuildings`, seeds its generator from a salted hash of the
master seed: no salt makes the asset stage's generator seed a hash of the
master seed, because the asset stage uses the master seed itself, which
ranges beyond any hash's output. -/
theorem assetSeed_not_salted :
    ¬ ∃ salt : String, ∀ seed : ℕ,
        assetRngSeed seed = hashString (Nat.repr seed ++ salt) := by
  rintro ⟨salt, h⟩
  have h1 := h 4294967296
  have h2 := hashString_lt (Nat.repr 4294967296 ++ salt)
  unfold assetRngSeed at h1
  omega

/-- Amended C6: `selectEpicBuildings` derives its generator seed as
`hash(String(seed) + 'epic')`, but `selectAssets` seeds its generator
directly from the master seed, with no salt and no hash. -/
theorem stage_seed_derivation :
    (∀ (cells : List IsoCell) (seed : ℕ) (stats : ContributionStats)
        (bm : ℤ × ℤ → Option BiomeContext),
      selectEpicBuildings cells seed stats bm =
        selectEpicWith cells (mkRng (hashString (Nat.repr seed ++ "epic")))
          stats bm) ∧
    (∀ (cells : List IsoCell) (seed : ℕ),
      selectAssets cells seed = selectAssetsWith cells (mkRng seed)) :=
  ⟨fun _ _ _ _ => rfl, fun _ _ => rfl⟩

-- ── C7: determinism ───────────────────────────────────────────

/-- C7: each pipeline stage is a pure function of its arguments — the
embedding has no hidden state, so two runs on the same seed and input
yield identical outputs. -/
theorem stages_deterministic :
    (∀ (cells : List GridCell) (heightOf : GridCell → ℚ) (ox oy : ℚ),
      toIsoCells cells heightOf ox oy = toIsoCells cells heightOf ox oy) ∧
    (∀ (cells : List IsoCell) (seed : ℕ),
      selectAssets cells seed = selectAssets cells seed) ∧
    (∀ (cells : List IsoCell) (seed : ℕ) (stats : ContributionStats)
        (bm : ℤ × ℤ → Option BiomeContext),
      selectEpicBuildings cells seed stats bm =
        selectEpicBuildings cells seed stats bm) :=
  ⟨fun _ _ _ _ => rfl, fun _ _ => rfl, fun _ _ _ _ => rfl⟩

-- ── C10: palette indexing safety ──────────────────────────────

/-- C10: with a non-empty palette array, `renderEpicBuildings` only ever
computes palette indices `min(week, length - 1)`, all of which are valid
positions, whatever the buildings' (natural) week indices are. -/
theorem renderEpic_palette_safe (placed : List PlacedEpicBuilding)
    (numPalettes : ℕ) (hn : 1 ≤ numPalettes)
    (hw : ∀ b ∈ placed, 0 ≤ b.week) :
    ∀ i ∈ renderEpicPaletteIdxs placed numPalettes,
      0 ≤ i ∧ i < (numPalettes : ℤ) := by
  intro i hi
  unfold renderEpicPaletteIdxs at hi
  rw [List.mem_map] at hi
  rcases hi with ⟨b, hb, rfl⟩
  unfold epicPaletteIdx
  constructor
  · exact le_min (hw b hb) (by omega)
  · calc min b.week ((numPalettes : ℤ) - 1) ≤ (numPalettes : ℤ) - 1 :=
        min_le_right _ _
    _ < (numPalettes : ℤ) := by omega

/-- A concrete building for the palette-indexing witness. -/
def paletteBW : PlacedEpicBuilding := ⟨"torii", .rare, 5, 2, 0, 0⟩

/-- Witness for the palette-indexing theorem: one building at week 5
against a 2-palette array. -/
theorem renderEpic_palette_safe_witness :
    1 ≤ 2 ∧ (∀ b ∈ [paletteBW], 0 ≤ b.week) ∧
    (∀ i ∈ renderEpicPaletteIdxs [paletteBW] 2, 0 ≤ i ∧ i < (2 : ℤ)) :=
  ⟨by decide, by decide,
    renderEpic_palette_safe [paletteBW] 2 (by decide) (by decide)⟩

-- ── C8: at most two assets per cell ───────────────────────────

/-- Number of placed assets referencing the cell with key `k`. -/
def assetsOnCell (assets : List PlacedAsset) (k : ℤ × ℤ) : ℕ :=
  (assets.filter fun a => decide (cellKey a.cell = k)).length

/-- One loop iteration only emits assets referencing its own cell. -/
theorem placeAssetsForCell_cell (cm : CellMap) (c : IsoCell) (rng : Rng) :
    ∀ a ∈ (placeAssetsForCell cm c rng).1, a.cell = c := by
  unfold placeAssetsForCell
  simp only [Rng.next]
  split_ifs <;> intro a ha <;> simp at ha
  · rcases ha with rfl | rfl <;> rfl
  · subst ha; rfl
  · subst ha; rfl

/-- One loop iteration emits at most two assets. -/
theorem placeAssetsForCell_len (cm : CellMap) (c : IsoCell) (rng : Rng) :
    (placeAssetsForCell cm c rng).1.length ≤ 2 := by
  unfold placeAssetsForCell
  simp only [Rng.next]
  split_ifs <;> simp

/-- One loop iteration emits a second (bonus) asset only when the cell's
richness exceeds 0.5, its level is at least 5, and the gating draw from
the stream is below 0.3. -/
theorem placeAssetsForCell_two (cm : CellMap) (c : IsoCell) (rng : Rng)
    (h : 2 ≤ (placeAssetsForCell cm c rng).1.length) :
    1/2 < computeRichness c cm ∧ 5 ≤ c.level10 ∧
      ∃ t, rng.stream t < 3/10 := by
  unfold placeAssetsForCell at h
  simp only [Rng.next] at h
  split_ifs at h with h1 h2 h3
  · exact ⟨h2.1, h2.2, rng.k + 4, h3⟩
  · simp at h
  · simp at h
  · simp at h

/-- One loop iteration does not change the generator's stream. -/
theorem placeAssetsForCell_stream (cm : CellMap) (c : IsoCell) (rng : Rng) :
    (placeAssetsForCell cm c rng).2.stream = rng.stream := by
  unfold placeAssetsForCell
  simp only [Rng.next]
  split_ifs <;> rfl

/-- Every asset the scan emits references a scanned cell. -/
theorem selectAssetsGo_cells (cm : CellMap) :
    ∀ (l : List IsoCell) (rng : Rng) (a : PlacedAsset),
      a ∈ selectAssetsGo cm l rng → ∃ c ∈ l, a.cell = c := by
  intro l
  induction l with
  | nil => intro rng a ha; simp [selectAssetsGo] at ha
  | cons c rest ih =>
    intro rng a ha
    rw [selectAssetsGo] at ha
    rw [List.mem_append] at ha
    rcases ha with ha | ha
    · exact ⟨c, List.mem_cons_self c rest, placeAssetsForCell_cell cm c rng a ha⟩
    · rcases ih _ a ha with ⟨c2, hc2, hac⟩
      exact ⟨c2, List.mem_cons_of_mem c hc2, hac⟩

/-- The scan's per-key count: at most two per cell key when the scanned
cells have pairwise-distinct keys, and a second asset on a key demands
the bonus conditions at that cell. -/
theorem selectAssetsGo_count (cm : CellMap) :
    ∀ (l : List IsoCell) (rng : Rng) (k : ℤ × ℤ),
      ((l.map cellKey).Nodup) →
      assetsOnCell (selectAssetsGo cm l rng) k ≤ 2 ∧
      (2 ≤ assetsOnCell (selectAssetsGo cm l rng) k →
        ∃ c ∈ l, cellKey c = k ∧ 1/2 < computeRichness c cm ∧
          5 ≤ c.level10 ∧ ∃ t, rng.stream t < 3/10) := by
  intro l
  induction l with
  | nil =>
    intro rng k _
    constructor
    · simp [selectAssetsGo, assetsOnCell]
    · intro h
      simp [selectAssetsGo, assetsOnCell] at h
  | cons c rest ih =>
    intro rng k hnd
    rw [List.map_cons, List.nodup_cons] at hnd
    rcases hnd with ⟨hknotin, hndrest⟩
    rw [selectAssetsGo]
    rcases hpc : placeAssetsForCell cm c rng with ⟨here, rng2⟩
    have hstream : rng2.stream = rng.stream := by
      have := placeAssetsForCell_stream cm c rng
      rw [hpc] at this
      exact this
    have hsplit : assetsOnCell (here ++ selectAssetsGo cm rest rng2) k =
        assetsOnCell here k + assetsOnCell (selectAssetsGo cm rest rng2) k := by
      unfold assetsOnCell
      rw [List.filter_append, List.length_append]
    by_cases hk : cellKey c = k
    · have hrest0 : assetsOnCell (selectAssetsGo cm rest rng2) k = 0 := by
        unfold assetsOnCell
        rw [List.length_eq_zero, List.filter_eq_nil_iff]
        intro a ha
        rcases selectAssetsGo_cells cm rest rng2 a ha with ⟨c2, hc2, hac2⟩
        simp only [decide_eq_true_eq]
        intro hkeq
        apply hknotin
        have hcc2 : cellKey c = cellKey c2 := by rw [hk, ← hkeq, hac2]
        rw [hcc2]
        exact List.mem_map_of_mem cellKey hc2
      have hhere : assetsOnCell here k ≤ here.length :=
        List.length_filter_le _ here
      have hlen : here.length ≤ 2 := by
        have := placeAssetsForCell_len cm c rng
        rw [hpc] at this
        exact this
      constructor
      · rw [hsplit, hrest0]
        omega
      · intro h2
        rw [hsplit, hrest0] at h2
        have h2here : 2 ≤ here.length := by omega
        have hcond : 1/2 < computeRichness c cm ∧ 5 ≤ c.level10 ∧
            ∃ t, rng.stream t < 3/10 := by
          apply placeAssetsForCell_two cm c rng
          rw [hpc]
          exact h2here
        exact ⟨c, List.mem_cons_self c rest, hk, hcond.1, hcond.2.1, hcond.2.2⟩
    · have hhere0 : assetsOnCell here k = 0 := by
        unfold assetsOnCell
        rw [List.length_eq_zero, List.filter_eq_nil_iff]
        intro a ha
        have hac : a.cell = c := by
          have := placeAssetsForCell_cell cm c rng a
          rw [hpc] at this
          exact this ha
        simp only [decide_eq_true_eq, hac]
        exact hk
      rcases ih rng2 k hndrest with ⟨ihle, ihtwo⟩
      constructor
      · rw [hsplit, hhere0]
        omega
      · intro h2
        rw [hsplit, hhere0] at h2
        rcases ihtwo (by omega) with ⟨c2, hc2, hkeq, hr, hl, t, ht⟩
        rw [hstream] at ht
        exact ⟨c2, List.mem_cons_of_mem c hc2, hkeq, hr, hl, t, ht⟩

/-- C8: `selectAssets` places at most two assets on any single cell, and
a second asset on a cell only when that cell's richness exceeds 0.5, its
level is at least 5, and an independent draw of the same stream passes
the 0.3 bonus gate. -/
theorem selectAssets_per_cell (cells : List IsoCell) (seed : ℕ) (k : ℤ × ℤ)
    (hnd : (cells.map cellKey).Nodup) :
    assetsOnCell (selectAssets cells seed) k ≤ 2 ∧
    (2 ≤ assetsOnCell (selectAssets cells seed) k →
      ∃ c ∈ cells, cellKey c = k ∧
        1/2 < computeRichness c (buildCellMap cells) ∧ 5 ≤ c.level10 ∧
        ∃ t, seededRandom seed t < 3/10) :=
  selectAssetsGo_count (buildCellMap cells) cells (mkRng seed) k hnd

/-- A level-5 cell for the asset-count witness. -/
def assetCellW : IsoCell := ⟨0, 0, 5, 50, 0, 0, 0⟩

/-- Witness for the per-cell asset bound on a one-cell grid. -/
theorem selectAssets_per_cell_witness :
    (([assetCellW].map cellKey).Nodup) ∧
    (assetsOnCell (selectAssets [assetCellW] 7) (0, 0) ≤ 2 ∧
     (2 ≤ assetsOnCell (selectAssets [assetCellW] 7) (0, 0) →
       ∃ c ∈ [assetCellW], cellKey c = (0, 0) ∧
         1/2 < computeRichness c (buildCellMap [assetCellW]) ∧
         5 ≤ c.level10 ∧ ∃ t, seededRandom 7 t < 3/10)) :=
  ⟨by decide, selectAssets_per_cell [assetCellW] 7 (0, 0) (by decide)⟩

/-- A max-level cell at `(0,0)`, listed twice in the counterexample
input. -/
def dupCellA : IsoCell := ⟨0, 0, 9, 99, 0, 0, 0⟩

/-- A max-level neighbor at `(0,1)` giving `dupCellA` full richness. -/
def dupCellB : IsoCell := ⟨0, 1, 9, 99, 0, 1, 2⟩

set_option maxRecDepth 10000 in
/-- Counterexample to the per-cell asset bound over arbitrary input
lists: when the same cell occurs twice in the input, each of its two loop
iterations can place two assets, so the cell at `(0,0)` receives four
assets at seed 13. -/
theorem selectAssets_per_cell_counterexample :
    2 < assetsOnCell (selectAssets [dupCellA, dupCellA, dupCellB] 13) (0, 0) := by
  with_unfolding_all decide
